import Mathlib

/-!
Shallow embedding of the fyne-datatable widget core (the Config-based
variant of the source, the one with New, SetData, applyFilterAndSort,
applySort, makeHeader and makeBody).

The embedding models the data and view state of the widget and the
operations that mutate or read it.  GUI-only concerns (canvas objects,
label widgets, layout and column width measurement, the footer text,
refresh requests) are not part of the model; the claims under study are
about the row store, the derived view, the sort state and the
selection/population callbacks.

Go strings are modelled as Lean strings; the byte-lexicographic order Go
uses for cmp.Compare coincides with codepoint-lexicographic order on
UTF-8 strings, which is what cmpChars below computes.  strings.ToLower
and strings.Contains are modelled character-wise.
-/

set_option maxRecDepth 8192

namespace FyneDatatable

/-- Models Go strings.ToLower: lower-case every character. -/
def goToLower (s : String) : String := String.mk (s.data.map Char.toLower)

/-- Models Go strings.Contains s sub: sub occurs as a contiguous
substring of s. -/
def strContains (s sub : String) : Bool :=
  (List.range (s.data.length + 1)).any
    (fun i => (s.data.drop i).take sub.data.length == sub.data)

/-- Lexicographic comparison of character lists; on UTF-8 strings this
agrees with the byte-wise comparison Go cmp.Compare performs. -/
def cmpChars : List Char → List Char → Ordering
  | [], [] => .eq
  | [], _ :: _ => .lt
  | _ :: _, [] => .gt
  | a :: as, b :: bs => if a < b then .lt else if b < a then .gt else cmpChars as bs

/-- Models Go cmp.Compare on strings. -/
def goCompare (a b : String) : Ordering := cmpChars a.data b.data

/-- Comparison result at most zero, the ordering a Go SortFunc
comparator induces. -/
def ordLe (o : Ordering) : Bool := match o with | .gt => false | _ => true

/-- Sort direction, Go type sortDir, an unsigned integer.  Modelled as
Nat because the header-click handler advances it with the ++ operator. -/
def sortOff : Nat := 0

/-- Ascending sort direction (Go constant SortAsc). -/
def SortAsc : Nat := 1

/-- Descending sort direction (Go constant SortDesc). -/
def SortDesc : Nat := 2

/-- A row of the table: the index of the row in the original data and
its column values (Go type row with fields idx and columns). -/
structure row where
  idx : Nat
  columns : List String
  deriving DecidableEq, Repr

/-- Column configuration (Go type Column). -/
structure Column where
  Title : String
  Width : Float

/-- Widget configuration (Go type Config). -/
structure Config where
  Columns : List Column
  FooterHidden : Bool
  HeaderHidden : Bool
  SearchBarHidden : Bool
  SortedColumnIndex : Int
  SortedColumnDirection : Nat

/-- The mutable core state of the DataTable widget: the fixed column
count, the header titles, the current text of the search bar entry, the
authoritative row store (cells), the derived view (cellsFiltered) and
the per-column sort directions (sortCols).  Render-only fields (layout,
widths, footer label, hidden flags) are omitted. -/
structure DataTable where
  numCols : Nat
  headerCells : List String
  searchText : String
  cells : List row
  cellsFiltered : List row
  sortCols : List Nat
  deriving DecidableEq, Repr

/-- Models Go defineWidths: empty widths become all-zero, otherwise the
length must equal the column count. -/
def defineWidths (widths : List Float) (numCols : Nat) : Except String (List Float) :=
  if widths.length = 0 then .ok (List.replicate numCols 0.0)
  else if widths.length ≠ numCols then .error "need to provide widths for exactly N columns"
  else .ok widths

/-- Models the constructor New: fails when no columns are configured or
the initial sort column index is out of range; an initial sort direction
of sortOff is forced to SortAsc; the initial sort column receives the
configured direction and all other columns are off. -/
def New (config : Config) : Except String DataTable :=
  if config.Columns.length = 0 then .error "no headers defined"
  else
    let numCols := config.Columns.length
    let headerCells := config.Columns.map Column.Title
    match defineWidths (config.Columns.map Column.Width) numCols with
    | .error e => .error e
    | .ok _ =>
      let dir := if config.SortedColumnDirection = sortOff then SortAsc
                 else config.SortedColumnDirection
      if config.SortedColumnIndex < 0 ∨ (numCols : Int) ≤ config.SortedColumnIndex then
        .error "invalid index for initial sort column"
      else
        .ok { numCols := numCols
              headerCells := headerCells
              searchText := ""
              cells := []
              cellsFiltered := []
              sortCols := (List.replicate numCols sortOff).set
                config.SortedColumnIndex.toNat dir }

/-- The sort key of a row for column i (Go expression a.columns[i]). -/
def colKey (i : Nat) (r : row) : String := r.columns.getD i ""

/-- Insert a row into an already sorted list.  Together with sortFunc
this models the call to Go slices.SortFunc.  slices.SortFunc is not part
of this repository; it is the standard-library pattern-defeating
quicksort, which for slices of at most 12 elements is exactly an
insertion sort and which its documentation declares not guaranteed to be
stable.  The insertion sort used here is an executable stand-in; no
theorem below about a claim relies on the ordering of equal keys
produced by this model. -/
def insertRow (le : row → row → Bool) (x : row) : List row → List row
  | [] => [x]
  | y :: ys => if le x y then x :: y :: ys else y :: insertRow le x ys

/-- Models the call slices.SortFunc(cells, cmp) with le the at-most-zero
test of the comparator; see insertRow for the modelling caveat. -/
def sortFunc (le : row → row → Bool) : List row → List row
  | [] => []
  | x :: xs => insertRow le x (sortFunc le xs)

/-- One iteration of the applySort loop over sortCols: sort the store by
column i ascending or descending, or leave it alone when the direction
is off (or any other value, matching the Go switch). -/
def sortPass (i : Nat) (c : Nat) (cells : List row) : List row :=
  if c = SortAsc then
    sortFunc (fun a b => ordLe (goCompare (colKey i a) (colKey i b))) cells
  else if c = SortDesc then
    sortFunc (fun a b => ordLe (goCompare (colKey i b) (colKey i a))) cells
  else cells

/-- The indexed loop of applySort over the per-column directions. -/
def applySortLoop (i : Nat) : List Nat → List row → List row
  | [], cells => cells
  | c :: rest, cells => applySortLoop (i + 1) rest (sortPass i c cells)

/-- Models applySort: sorts the row store in place according to
sortCols.  The header caption relabelling it also performs is
render-only and not modelled. -/
def applySort (w : DataTable) : DataTable :=
  { w with cells := applySortLoop 0 w.sortCols w.cells }

/-- The row match test of applyFilterAndSort: the row matches when some
column cell, lower-cased, contains the lower-cased search text. -/
def rowMatches (search : String) (r : row) : Bool :=
  r.columns.any (fun c => strContains (goToLower c) (goToLower search))

/-- Models applyFilterAndSort: sort the entire store, then rebuild the
view by keeping, in sorted order, the rows that match the search text. -/
def applyFilterAndSort (search : String) (w : DataTable) : DataTable :=
  let w1 := applySort w
  { w1 with cellsFiltered := w1.cells.filter (rowMatches search) }

/-- Models the search entry OnChanged callback: record the new entry
text and recompute the view. -/
def onSearchChanged (s : String) (w : DataTable) : DataTable :=
  applyFilterAndSort s { w with searchText := s }

/-- The loop body of the header OnTapped callback over column index j
starting at j0: the tapped column advances off to asc, asc to desc and
desc back to asc (Go increments the direction unless it is SortDesc);
every other column is forced off. -/
def clickLoop (col : Nat) : Nat → List Nat → List Nat
  | _, [] => []
  | j, c :: rest =>
    (if j = col then (if c = SortDesc then SortAsc else c + 1) else sortOff)
      :: clickLoop col (j + 1) rest

/-- The sortCols transition a header tap on column col performs. -/
def clickSortCols (col : Nat) (sc : List Nat) : List Nat := clickLoop col 0 sc

/-- Models the header OnTapped callback: advance the sort state for the
tapped column, then recompute the view with the current search text. -/
def onTapped (col : Nat) (w : DataTable) : DataTable :=
  applyFilterAndSort w.searchText { w with sortCols := clickSortCols col w.sortCols }

/-- Rows built from the input data with their 0-based position recorded,
starting at position k (the SetData construction loop). -/
def enumRows (k : Nat) : List (List String) → List row
  | [] => []
  | r :: rest => ⟨k, r⟩ :: enumRows (k + 1) rest

/-- Models SetData: if some input row does not have exactly numCols
columns, report an error and leave the state untouched (the validation
loop runs before any mutation).  On success replace the store with the
indexed rows, set the view to a clone of the store taken before sorting,
then sort the store with the current sort state.  The result pairs the
new state with the returned error. -/
def SetData (w : DataTable) (cells : List (List String)) : DataTable × Option String :=
  if cells.any (fun r => r.length ≠ w.numCols) then
    (w, some "some rows do not have the expected number of columns")
  else
    let rows := enumRows 0 cells
    (applySort { w with cells := rows, cellsFiltered := rows }, none)

/-- Models the list length callback of makeBody. -/
def rowCount (w : DataTable) : Nat := w.cellsFiltered.length

/-- Models the list updateItem callback of makeBody on a row widget of
label texts: out-of-range view indices leave the labels untouched;
otherwise label i receives the cell text of column i. -/
def updateItem (w : DataTable) (id : Nat) (labels : List String) : List String :=
  if w.cellsFiltered.length ≤ id then labels
  else
    let r := w.cellsFiltered.getD id ⟨0, []⟩
    (List.range w.numCols).foldl (fun acc i => acc.set i (r.columns.getD i "")) labels

/-- Models the list OnSelected callback of makeBody: the value passed to
the host OnSelected callback, or none when the callback is absent or the
view index is out of range (the silent no-op safeguard). -/
def onRowSelected (hasCallback : Bool) (id : Nat) (w : DataTable) : Option Nat :=
  if !hasCallback then none
  else if w.cellsFiltered.length ≤ id then none
  else some ((w.cellsFiltered.getD id ⟨0, []⟩).idx)

/-- A user-interface mutation after SetData: a search text change or a
header tap. -/
inductive Op where
  | search (s : String)
  | click (col : Nat)

/-- Apply one mutation. -/
def applyOp : Op → DataTable → DataTable
  | .search s, w => onSearchChanged s w
  | .click col, w => onTapped col w

/-- Apply a sequence of mutations from left to right. -/
def applyOps (ops : List Op) (w : DataTable) : DataTable :=
  ops.foldl (fun w op => applyOp op w) w

/-- Apply a sequence of header taps from left to right. -/
def applyClicks (clicks : List Nat) (w : DataTable) : DataTable :=
  clicks.foldl (fun w c => onTapped c w) w

/-- Number of columns whose sort direction is not off. -/
def countNonOff : List Nat → Nat
  | [] => 0
  | c :: rest => (if c ≠ sortOff then 1 else 0) + countNonOff rest

/-- Modelled from the spec: the per-column filter rule of claim C1 (a
row matches when, for every column i, the filter text of column i is
empty or its case-folded form is a substring of the case-folded cell of
column i).  The widget of the source has no per-column filter texts,
only the single search entry; this definition exists to be compared with
the filter the source implements. -/
def specPerColumnMatch (filterTexts : List String) (cols : List String) : Bool :=
  (List.range filterTexts.length).all
    (fun i => (filterTexts.getD i "" == "")
      || strContains (goToLower (cols.getD i "")) (goToLower (filterTexts.getD i "")))

/-! ### Helper lemmas -/

theorem insertRow_perm (le : row → row → Bool) (x : row) (l : List row) :
    (insertRow le x l).Perm (x :: l) := by
  induction l with
  | nil => simp [insertRow]
  | cons y ys ih =>
    simp only [insertRow]
    by_cases hle : le x y = true
    · rw [if_pos hle]
    · rw [if_neg hle]
      exact (ih.cons y).trans (List.Perm.swap x y ys)

theorem sortFunc_perm (le : row → row → Bool) (l : List row) :
    (sortFunc le l).Perm l := by
  induction l with
  | nil => simp [sortFunc]
  | cons x xs ih =>
    exact (insertRow_perm le x (sortFunc le xs)).trans (ih.cons x)

theorem mem_sortFunc (le : row → row → Bool) (l : List row) (r : row) :
    r ∈ sortFunc le l ↔ r ∈ l :=
  (sortFunc_perm le l).mem_iff

theorem mem_sortPass (i c : Nat) (cells : List row) (r : row) :
    r ∈ sortPass i c cells ↔ r ∈ cells := by
  unfold sortPass
  split
  · exact mem_sortFunc _ cells r
  · split
    · exact mem_sortFunc _ cells r
    · exact Iff.rfl

theorem mem_applySortLoop (cols : List Nat) (i : Nat) (cells : List row) (r : row) :
    r ∈ applySortLoop i cols cells ↔ r ∈ cells := by
  induction cols generalizing i cells with
  | nil => exact Iff.rfl
  | cons c rest ih =>
    simp only [applySortLoop]
    exact (ih (i + 1) (sortPass i c cells)).trans (mem_sortPass i c cells r)

theorem strContains_empty (s : String) : strContains s "" = true := by
  apply List.any_eq_true.mpr
  exact ⟨0, List.mem_range.mpr (Nat.succ_pos _), by simp⟩

theorem rowMatches_empty (r : row) (h : r.columns ≠ []) : rowMatches "" r = true := by
  apply List.any_eq_true.mpr
  cases hc : r.columns with
  | nil => exact absurd hc h
  | cons c cs =>
    refine ⟨c, by simp [hc], ?_⟩
    have : goToLower "" = "" := rfl
    rw [this, strContains_empty]

/-! ### Claim C1: the filter rule of the derived view -/

/-- A concrete two-column table holding the single row ["a", "b"],
ascending sort on column 0, used to refute claim C1. -/
def tblC1 : DataTable :=
  { numCols := 2, headerCells := ["A", "B"], searchText := ""
    cells := [⟨0, ["a", "b"]⟩], cellsFiltered := [⟨0, ["a", "b"]⟩]
    sortCols := [1, 0] }

/-- Claim C1, counterexample.  The claim states that a row is kept iff
for every column i the filter text of column i is empty or a case-folded
substring of the cell in column i.  The widget has one search entry
whose text is the filter input for every column; entering "a" on tblC1
keeps the row ["a", "b"] in the view although column 1 cell "b" does not
contain "a", so the per-column ANDed rule of the claim rejects the very
row the program keeps. -/
theorem claim_C1_counterexample :
    (⟨0, ["a", "b"]⟩ : row) ∈ (onSearchChanged "a" tblC1).cellsFiltered ∧
    specPerColumnMatch ["a", "a"] ["a", "b"] = false := by
  exact ⟨by decide, by decide⟩

/-- Claim C1, amended.  The filter input is the single search text: a
row is kept in the derived view iff it is in the sorted full store and
the case-folded search text is a substring of the case-folded cell of at
least one column (OR across columns, not AND). -/
theorem claim_C1_amended (w : DataTable) (s : String) (r : row) :
    r ∈ (applyFilterAndSort s w).cellsFiltered ↔
      r ∈ applySortLoop 0 w.sortCols w.cells ∧
        ∃ c ∈ r.columns, strContains (goToLower c) (goToLower s) = true := by
  simp [applyFilterAndSort, applySort, rowMatches, List.mem_filter, List.any_eq_true]

/-! ### Claim C2: SetData and the current filter -/

/-- A one-column table whose search entry currently holds the text "z",
obtained by typing "z" into the search bar of an empty table. -/
def tblC2 : DataTable :=
  onSearchChanged "z" { numCols := 1, headerCells := ["H"], searchText := ""
                        cells := [], cellsFiltered := [], sortCols := [1] }

/-- Claim C2, counterexample.  With current search text "z" (non-empty),
SetData [["b"], ["a"]] succeeds, yet the row ["b"], which does not match
the filter "z", is in the view immediately after SetData returns (the
view is the unfiltered, unsorted clone of the new data). -/
theorem claim_C2_counterexample :
    tblC2.searchText = "z" ∧ ("z" : String) ≠ "" ∧
    (SetData tblC2 [["b"], ["a"]]).2 = none ∧
    (SetData tblC2 [["b"], ["a"]]).1.searchText = "z" ∧
    (⟨0, ["b"]⟩ : row) ∈ (SetData tblC2 [["b"], ["a"]]).1.cellsFiltered ∧
    rowMatches "z" ⟨0, ["b"]⟩ = false := by
  refine ⟨by decide, by decide, by decide, by decide, by decide, by decide⟩

/-- Claim C2, amended.  On success, SetData replaces the store with the
indexed new rows sorted by the current sort state, but sets the view to
all new rows in original data order: the current search text is left in
place and is not applied to the view (and the view is not sorted); rows
failing the current filter stay visible until the next search or header
event recomputes the view. -/
theorem claim_C2_amended (w : DataTable) (D : List (List String))
    (h : (SetData w D).2 = none) :
    (SetData w D).1.cellsFiltered = enumRows 0 D ∧
    (SetData w D).1.cells = applySortLoop 0 w.sortCols (enumRows 0 D) ∧
    (SetData w D).1.searchText = w.searchText := by
  unfold SetData at *
  by_cases hbad : D.any (fun r => r.length ≠ w.numCols) = true
  · rw [if_pos hbad] at h
    exact absurd h (by simp)
  · rw [if_neg hbad]
    exact ⟨rfl, rfl, rfl⟩

/-- Claim C2, witness for the amended theorem at the concrete table
tblC2 and data [["b"], ["a"]]. -/
theorem claim_C2_witness :
    (SetData tblC2 [["b"], ["a"]]).2 = none ∧
    ((SetData tblC2 [["b"], ["a"]]).1.cellsFiltered = enumRows 0 [["b"], ["a"]] ∧
     (SetData tblC2 [["b"], ["a"]]).1.cells
       = applySortLoop 0 tblC2.sortCols (enumRows 0 [["b"], ["a"]]) ∧
     (SetData tblC2 [["b"], ["a"]]).1.searchText = tblC2.searchText) :=
  ⟨by decide, claim_C2_amended tblC2 [["b"], ["a"]] (by decide)⟩

/-! ### Claim C4: filtering never reorders -/

/-- Claim C4.  For a well-formed store (every row has the fixed positive
column count), the view computed with a filter equals the view computed
with the empty filter (the full sorted order) with exactly the rows
failing the filter removed. -/
theorem claim_C4 (w : DataTable) (s : String)
    (hcols : ∀ r ∈ w.cells, r.columns.length = w.numCols) (hpos : 0 < w.numCols) :
    (applyFilterAndSort s w).cellsFiltered
      = ((applyFilterAndSort "" w).cellsFiltered).filter (rowMatches s) := by
  have hsorted : ∀ r ∈ applySortLoop 0 w.sortCols w.cells, rowMatches "" r = true := by
    intro r hr
    have hr2 := (mem_applySortLoop w.sortCols 0 w.cells r).mp hr
    apply rowMatches_empty
    intro hnil
    have hlen := hcols r hr2
    rw [hnil] at hlen
    simp only [List.length_nil] at hlen
    omega
  show (applySortLoop 0 w.sortCols w.cells).filter (rowMatches s)
      = ((applySortLoop 0 w.sortCols w.cells).filter (rowMatches "")).filter (rowMatches s)
  rw [List.filter_eq_self.mpr hsorted]

/-- A concrete one-column table with two rows, ascending sort on column
0, used as witness input for claim C4. -/
def tblC4 : DataTable :=
  { numCols := 1, headerCells := ["H"], searchText := ""
    cells := [⟨0, ["b"]⟩, ⟨1, ["a"]⟩], cellsFiltered := [⟨0, ["b"]⟩, ⟨1, ["a"]⟩]
    sortCols := [1] }

/-- Claim C4, witness at the concrete table tblC4 and filter "a". -/
theorem claim_C4_witness :
    (∀ r ∈ tblC4.cells, r.columns.length = tblC4.numCols) ∧ 0 < tblC4.numCols ∧
    (applyFilterAndSort "a" tblC4).cellsFiltered
      = ((applyFilterAndSort "" tblC4).cellsFiltered).filter (rowMatches "a") :=
  ⟨by decide, by decide, claim_C4 tblC4 "a" (by decide) (by decide)⟩

/-! ### Claim C5: SetData validation and atomicity -/

/-- Claim C5.  SetData reports an error iff some input row has a column
count different from the fixed column count of the table, and on error
the state (stored rows and displayed view alike) is left unchanged. -/
theorem claim_C5 (w : DataTable) (D : List (List String)) :
    ((SetData w D).2.isSome = true ↔ ∃ r ∈ D, r.length ≠ w.numCols) ∧
    ((SetData w D).2.isSome = true → (SetData w D).1 = w) := by
  unfold SetData
  by_cases hbad : D.any (fun r => decide (r.length ≠ w.numCols)) = true
  · rw [if_pos hbad]
    refine ⟨⟨fun _ => ?_, fun _ => rfl⟩, fun _ => rfl⟩
    simpa using List.any_eq_true.mp hbad
  · rw [if_neg hbad]
    refine ⟨⟨fun hc => by simp at hc, fun hex => ?_⟩, fun hc => by simp at hc⟩
    rcases hex with ⟨r, hrD, hlen⟩
    exact absurd (List.any_eq_true.mpr ⟨r, hrD, by simpa using hlen⟩) hbad

/-- A concrete two-column table used as witness input for claim C5. -/
def tblC5 : DataTable :=
  { numCols := 2, headerCells := ["A", "B"], searchText := ""
    cells := [⟨0, ["x", "y"]⟩], cellsFiltered := [⟨0, ["x", "y"]⟩]
    sortCols := [1, 0] }

/-- Claim C5, witness: a data set containing a one-column row makes
SetData of the two-column table tblC5 fail and leaves it unchanged. -/
theorem claim_C5_witness :
    (SetData tblC5 [["a"], ["b", "c"]]).2.isSome = true ∧
    (SetData tblC5 [["a"], ["b", "c"]]).1 = tblC5 := by
  have h := claim_C5 tblC5 [["a"], ["b", "c"]]
  have h1 : (SetData tblC5 [["a"], ["b", "c"]]).2.isSome = true :=
    h.1.mpr ⟨["a"], by decide, by decide⟩
  exact ⟨h1, h.2 h1⟩

/-! ### Claim C8: out-of-range view accesses are silent no-ops -/

/-- Claim C8.  For a view index at or beyond the current view length,
populating a row leaves the row widget untouched and selection resolves
to no callback invocation, whether or not a callback is registered. -/
theorem claim_C8 (w : DataTable) (id : Nat) (labels : List String) (hasCb : Bool)
    (h : w.cellsFiltered.length ≤ id) :
    updateItem w id labels = labels ∧ onRowSelected hasCb id w = none := by
  constructor
  · unfold updateItem
    rw [if_pos h]
  · unfold onRowSelected
    cases hasCb with
    | false => rfl
    | true =>
      rw [if_neg (by simp), if_pos h]

/-- A concrete one-row table used as witness input for claim C8. -/
def tblC8 : DataTable :=
  { numCols := 1, headerCells := ["H"], searchText := ""
    cells := [⟨0, ["x"]⟩], cellsFiltered := [⟨0, ["x"]⟩], sortCols := [1] }

/-- Claim C8, witness at view index 5 of the one-row table tblC8. -/
theorem claim_C8_witness :
    tblC8.cellsFiltered.length ≤ 5 ∧
    (updateItem tblC8 5 ["old"] = ["old"] ∧ onRowSelected true 5 tblC8 = none) :=
  ⟨by decide, claim_C8 tblC8 5 ["old"] true (by decide)⟩

/-! ### Claim C7: the header click cycle -/

theorem length_clickLoop (col j : Nat) (l : List Nat) :
    (clickLoop col j l).length = l.length := by
  induction l generalizing j with
  | nil => rfl
  | cons c rest ih => simp [clickLoop, ih]

theorem getD_clickLoop (col : Nat) (l : List Nat) (j0 j : Nat) (h : j < l.length) :
    (clickLoop col j0 l).getD j 0
      = if j0 + j = col then (if l.getD j 0 = SortDesc then SortAsc else l.getD j 0 + 1)
        else sortOff := by
  induction l generalizing j0 j with
  | nil => simp at h
  | cons c rest ih =>
    cases j with
    | zero =>
      simp only [clickLoop, List.getD_cons_zero, Nat.add_zero]
    | succ n =>
      have hn : n < rest.length := by simpa using h
      simp only [clickLoop, List.getD_cons_succ]
      rw [ih (j0 + 1) n hn]
      have harith : j0 + 1 + n = j0 + (n + 1) := by omega
      rw [harith]

theorem sortCols_onTapped (col : Nat) (w : DataTable) :
    (onTapped col w).sortCols = clickSortCols col w.sortCols := rfl

theorem getD_onTapped (col : Nat) (w : DataTable) (h : col < w.sortCols.length) :
    (onTapped col w).sortCols.getD col 0
      = if w.sortCols.getD col 0 = SortDesc then SortAsc else w.sortCols.getD col 0 + 1 := by
  rw [sortCols_onTapped, clickSortCols, getD_clickLoop col w.sortCols 0 col h,
    if_pos (Nat.zero_add col)]

theorem length_sortCols_onTapped (col : Nat) (w : DataTable) :
    (onTapped col w).sortCols.length = w.sortCols.length := by
  rw [sortCols_onTapped, clickSortCols, length_clickLoop]

/-- Claim C7.  A header click on column col advances that column through
the cycle off to ascending to descending to ascending; the result is
never off; three clicks starting from off land on ascending; and every
other column is forced off by the click. -/
theorem claim_C7 (w : DataTable) (col : Nat) (h : col < w.sortCols.length) :
    (w.sortCols.getD col 0 = sortOff → (onTapped col w).sortCols.getD col 0 = SortAsc) ∧
    (w.sortCols.getD col 0 = SortAsc → (onTapped col w).sortCols.getD col 0 = SortDesc) ∧
    (w.sortCols.getD col 0 = SortDesc → (onTapped col w).sortCols.getD col 0 = SortAsc) ∧
    (onTapped col w).sortCols.getD col 0 ≠ sortOff ∧
    (∀ j, j < w.sortCols.length → j ≠ col → (onTapped col w).sortCols.getD j 0 = sortOff) ∧
    (w.sortCols.getD col 0 = sortOff →
      (onTapped col (onTapped col (onTapped col w))).sortCols.getD col 0 = SortAsc) := by
  have h1 : col < (onTapped col w).sortCols.length := by
    rw [length_sortCols_onTapped]; exact h
  have h2 : col < (onTapped col (onTapped col w)).sortCols.length := by
    rw [length_sortCols_onTapped]; exact h1
  refine ⟨?_, ?_, ?_, ?_, ?_, ?_⟩
  · intro h0
    rw [getD_onTapped col w h, h0]
    simp [sortOff, SortAsc, SortDesc]
  · intro h0
    rw [getD_onTapped col w h, h0]
    simp [SortAsc, SortDesc]
  · intro h0
    rw [getD_onTapped col w h, h0]
    simp
  · rw [getD_onTapped col w h]
    split
    · simp [SortAsc, sortOff]
    · simp [sortOff]
  · intro j hj hne
    rw [sortCols_onTapped, clickSortCols, getD_clickLoop col w.sortCols 0 j hj,
      if_neg (by omega)]
  · intro h0
    rw [getD_onTapped col (onTapped col (onTapped col w)) h2,
      getD_onTapped col (onTapped col w) h1, getD_onTapped col w h, h0]
    simp [sortOff, SortAsc, SortDesc]

/-- A concrete two-column table with column 0 off and column 1
ascending, used as witness input for claim C7. -/
def tblC7 : DataTable :=
  { numCols := 2, headerCells := ["A", "B"], searchText := ""
    cells := [⟨0, ["x", "y"]⟩], cellsFiltered := [⟨0, ["x", "y"]⟩]
    sortCols := [0, 1] }

/-- Claim C7, witness: clicking header 0 of tblC7 (currently off) gives
ascending, and three clicks land on ascending again. -/
theorem claim_C7_witness :
    0 < tblC7.sortCols.length ∧
    (onTapped 0 tblC7).sortCols.getD 0 0 = SortAsc ∧
    (onTapped 0 (onTapped 0 (onTapped 0 tblC7))).sortCols.getD 0 0 = SortAsc :=
  ⟨by decide, (claim_C7 tblC7 0 (by decide)).1 (by decide),
    (claim_C7 tblC7 0 (by decide)).2.2.2.2.2 (by decide)⟩

/-! ### Claim C9: exactly one column is sorted at all times -/

theorem countNonOff_replicate_zero (n : Nat) :
    countNonOff (List.replicate n 0) = 0 := by
  induction n with
  | zero => rfl
  | succ m ih => simp [List.replicate_succ, countNonOff, sortOff, ih]

theorem countNonOff_set_replicate (n i d : Nat) (hi : i < n) (hd : d ≠ 0) :
    countNonOff ((List.replicate n 0).set i d) = 1 := by
  induction n generalizing i with
  | zero => omega
  | succ m ih =>
    cases i with
    | zero =>
      simp [List.replicate_succ, countNonOff, sortOff, hd, countNonOff_replicate_zero]
    | succ k =>
      have hk : k < m := by omega
      simp only [List.replicate_succ, List.set_cons_succ, countNonOff, sortOff]
      rw [ih k hk]
      simp

theorem countNonOff_clickLoop (col : Nat) (l : List Nat) (j0 : Nat) :
    countNonOff (clickLoop col j0 l)
      = if j0 ≤ col ∧ col < j0 + l.length then 1 else 0 := by
  induction l generalizing j0 with
  | nil =>
    simp only [clickLoop, countNonOff, List.length_nil]
    rw [if_neg (by omega)]
  | cons c rest ih =>
    simp only [clickLoop, countNonOff]
    rw [ih (j0 + 1)]
    by_cases hj : j0 = col
    · subst hj
      have hval : (if c = SortDesc then SortAsc else c + 1) ≠ sortOff := by
        split <;> simp [SortAsc, sortOff]
      rw [if_pos rfl, if_pos hval, if_neg (by omega),
        if_pos (by simp only [List.length_cons]; omega)]
    · rw [if_neg hj, if_neg (by simp [sortOff])]
      have hiff : (j0 + 1 ≤ col ∧ col < j0 + 1 + rest.length)
          ↔ (j0 ≤ col ∧ col < j0 + (c :: rest).length) := by
        simp only [List.length_cons]
        omega
      rw [if_congr hiff rfl rfl]
      omega

theorem getD_set_self (l : List Nat) (i d : Nat) (hi : i < l.length) :
    (l.set i d).getD i 0 = d := by
  induction l generalizing i with
  | nil => simp at hi
  | cons c rest ih =>
    cases i with
    | zero => rfl
    | succ k =>
      have hk : k < rest.length := by simpa using hi
      simp only [List.set_cons_succ, List.getD_cons_succ]
      exact ih k hk

/-- Characterisation of a successful construction: New succeeds exactly
when the configuration has at least one column and an in-range initial
sort column, and then the sort state is all-off except for the initial
sort column, which carries the configured direction with off forced to
ascending. -/
theorem New_ok_sortCols (config : Config) (w : DataTable) (h : New config = .ok w) :
    w.numCols = config.Columns.length ∧
    config.SortedColumnIndex.toNat < config.Columns.length ∧
    w.sortCols = (List.replicate config.Columns.length sortOff).set
      config.SortedColumnIndex.toNat
      (if config.SortedColumnDirection = sortOff then SortAsc
       else config.SortedColumnDirection) := by
  unfold New at h
  by_cases hz : config.Columns.length = 0
  · rw [if_pos hz] at h
    cases h
  · rw [if_neg hz] at h
    have hw : defineWidths (config.Columns.map Column.Width) config.Columns.length
        = .ok (config.Columns.map Column.Width) := by
      unfold defineWidths
      rw [if_neg (by simpa using hz), if_neg (by simp)]
    simp only [hw] at h
    by_cases hr : config.SortedColumnIndex < 0
        ∨ (config.Columns.length : Int) ≤ config.SortedColumnIndex
    · rw [if_pos hr] at h
      cases h
    · rw [if_neg hr] at h
      cases h
      push_neg at hr
      refine ⟨rfl, ?_, rfl⟩
      omega

/-- Claim C9.  From any successful construction, through any sequence of
header clicks on existing columns, exactly one column has a non-off sort
direction; moreover a configured initial direction of off is forced to
ascending on the initial sort column. -/
theorem claim_C9 (config : Config) (w : DataTable) (clicks : List Nat)
    (hok : New config = .ok w) (hcl : ∀ c ∈ clicks, c < w.sortCols.length) :
    countNonOff ((applyClicks clicks w).sortCols) = 1 ∧
    (config.SortedColumnDirection = sortOff →
      w.sortCols.getD config.SortedColumnIndex.toNat 0 = SortAsc) := by
  obtain ⟨hnum, hidx, hsc⟩ := New_ok_sortCols config w hok
  have hlen : w.sortCols.length = config.Columns.length := by
    rw [hsc, List.length_set, List.length_replicate]
  have hcount : countNonOff w.sortCols = 1 := by
    rw [hsc]
    apply countNonOff_set_replicate _ _ _ hidx
    split
    · simp [SortAsc]
    · simpa [sortOff] using by assumption
  constructor
  · clear hok hsc hnum hidx
    induction clicks generalizing w with
    | nil => exact hcount
    | cons c cs ih =>
      have hc : c < w.sortCols.length := hcl c (by simp)
      have hlen2 : (onTapped c w).sortCols.length = config.Columns.length := by
        rw [length_sortCols_onTapped, hlen]
      have hcount2 : countNonOff (onTapped c w).sortCols = 1 := by
        rw [sortCols_onTapped, clickSortCols, countNonOff_clickLoop,
          if_pos (by constructor <;> omega)]
      exact ih (onTapped c w)
        (fun x hx => by rw [hlen2, ← hlen]; exact hcl x (by simp [hx]))
        hlen2 hcount2
  · intro hdir
    rw [hsc, getD_set_self _ _ _ (by rw [List.length_replicate]; exact hidx),
      if_pos hdir]

/-- A concrete two-column configuration with an initial sort direction
of off, used as witness input for claim C9. -/
def cfgC9 : Config :=
  { Columns := [⟨"A", 0.0⟩, ⟨"B", 0.0⟩]
    FooterHidden := false, HeaderHidden := false, SearchBarHidden := false
    SortedColumnIndex := 0, SortedColumnDirection := 0 }

/-- The table New builds from cfgC9. -/
def tblC9 : DataTable :=
  { numCols := 2, headerCells := ["A", "B"], searchText := ""
    cells := [], cellsFiltered := [], sortCols := [1, 0] }

/-- Claim C9, witness: constructing from cfgC9 and clicking headers 1, 0
and 1 always leaves exactly one column with a non-off direction. -/
theorem claim_C9_witness :
    New cfgC9 = .ok tblC9 ∧
    (∀ c ∈ [1, 0, 1], c < tblC9.sortCols.length) ∧
    countNonOff ((applyClicks [1, 0, 1] tblC9).sortCols) = 1 :=
  ⟨by rfl, by decide, (claim_C9 cfgC9 tblC9 [1, 0, 1] (by rfl) (by decide)).1⟩

/-! ### Claim C6: original-index stability -/

theorem enumRows_mem (D : List (List String)) :
    ∀ (k : Nat) (r : row), r ∈ enumRows k D → k ≤ r.idx ∧ D[r.idx - k]? = some r.columns := by
  induction D with
  | nil => intro k r hr; simp [enumRows] at hr
  | cons d rest ih =>
    intro k r hr
    simp only [enumRows, List.mem_cons] at hr
    rcases hr with h | h
    · subst h
      refine ⟨Nat.le_refl k, ?_⟩
      simp
    · obtain ⟨hk, hget⟩ := ih (k + 1) r h
      refine ⟨by omega, ?_⟩
      have hidx : r.idx - k = (r.idx - (k + 1)) + 1 := by omega
      rw [hidx, List.getElem?_cons_succ]
      exact hget

/-- Every row reachable from the state (in the store or in the view)
is row number idx of the data D. -/
def goodTable (D : List (List String)) (v : DataTable) : Prop :=
  (∀ r ∈ v.cells, D[r.idx]? = some r.columns) ∧
  (∀ r ∈ v.cellsFiltered, D[r.idx]? = some r.columns)

theorem goodTable_applyFilterAndSort (D : List (List String)) (s : String)
    (v : DataTable) (h : goodTable D v) : goodTable D (applyFilterAndSort s v) := by
  constructor
  · intro r hr
    exact h.1 r ((mem_applySortLoop v.sortCols 0 v.cells r).mp hr)
  · intro r hr
    have hb : r ∈ applySortLoop 0 v.sortCols v.cells := (List.mem_filter.mp hr).1
    exact h.1 r ((mem_applySortLoop v.sortCols 0 v.cells r).mp hb)

theorem goodTable_applyOp (D : List (List String)) (op : Op) (v : DataTable)
    (h : goodTable D v) : goodTable D (applyOp op v) := by
  cases op with
  | search s => exact goodTable_applyFilterAndSort D s { v with searchText := s } h
  | click col =>
    exact goodTable_applyFilterAndSort D v.searchText
      { v with sortCols := clickSortCols col v.sortCols } h

theorem goodTable_applyOps (D : List (List String)) (ops : List Op) (v : DataTable)
    (h : goodTable D v) : goodTable D (applyOps ops v) := by
  induction ops generalizing v with
  | nil => exact h
  | cons op rest ih => exact ih (applyOp op v) (goodTable_applyOp D op v h)

theorem onRowSelected_eq_idx (v : DataTable) (id : Nat) (r0 : row)
    (h : v.cellsFiltered[id]? = some r0) :
    onRowSelected true id v = some r0.idx := by
  have hlt : id < v.cellsFiltered.length := by
    by_contra hge
    rw [List.getElem?_eq_none (by omega)] at h
    cases h
  unfold onRowSelected
  rw [if_neg (by simp), if_neg (by omega)]
  have hd : v.cellsFiltered.getD id ⟨0, []⟩ = r0 := by
    rw [List.getD_eq_getElem?_getD, h]
    rfl
  rw [hd]

/-- Claim C6.  After a successful SetData of D, through any sequence of
search and header-click operations, every row of the resulting view is
exactly row idx of D (the original index is assigned at SetData and
never renumbered), and selecting view entry id passes that original
index to the selection callback. -/
theorem claim_C6 (w : DataTable) (D : List (List String)) (ops : List Op)
    (hok : (SetData w D).2 = none) :
    (∀ r ∈ (applyOps ops (SetData w D).1).cellsFiltered, D[r.idx]? = some r.columns) ∧
    (∀ (id : Nat) (r0 : row),
      ((applyOps ops (SetData w D).1).cellsFiltered)[id]? = some r0 →
        onRowSelected true id (applyOps ops (SetData w D).1) = some r0.idx) := by
  have hgood0 : goodTable D (SetData w D).1 := by
    unfold SetData at *
    by_cases hbad : D.any (fun r => decide (r.length ≠ w.numCols)) = true
    · rw [if_pos hbad] at hok
      exact absurd hok (by simp)
    · rw [if_neg hbad]
      have henum : ∀ r ∈ enumRows 0 D, D[r.idx]? = some r.columns := by
        intro r hr
        have := (enumRows_mem D 0 r hr).2
        simpa using this
      constructor
      · intro r hr
        have hb : r ∈ enumRows 0 D :=
          (mem_applySortLoop w.sortCols 0 (enumRows 0 D) r).mp hr
        exact henum r hb
      · intro r hr
        exact henum r hr
  have hgood : goodTable D (applyOps ops (SetData w D).1) :=
    goodTable_applyOps D ops (SetData w D).1 hgood0
  refine ⟨hgood.2, ?_⟩
  intro id r0 h
  exact onRowSelected_eq_idx (applyOps ops (SetData w D).1) id r0 h

/-- A concrete one-column table used as witness input for claim C6. -/
def tblC6 : DataTable :=
  { numCols := 1, headerCells := ["H"], searchText := ""
    cells := [], cellsFiltered := [], sortCols := [1] }

/-- The operations typed after SetData in the witness for claim C6:
search for "a", then click header 0. -/
def opsC6 : List Op := [.search "a", .click 0]

/-- Claim C6, witness: after SetData [["b"], ["a"]] on tblC6 followed by
opsC6, the surviving view row carries original index 1, the position of
["a"] in the data. -/
theorem claim_C6_witness :
    (SetData tblC6 [["b"], ["a"]]).2 = none ∧
    ([["b"], ["a"]] : List (List String))[(1 : Nat)]? = some ["a"] :=
  ⟨by decide,
    (claim_C6 tblC6 [["b"], ["a"]] opsC6 (by decide)).1 ⟨1, ["a"]⟩ (by decide)⟩

end FyneDatatable
